import Mathlib

/-
Verification of the umbralux ray tracer's core against its specification.

The Rust sources are shallowly embedded over the real numbers: `f64` values
become `ℝ`, `f64::sqrt` becomes `Real.sqrt`, `f64::powf` becomes `Real.rpow`.
Division by zero is total in Lean (`x / 0 = 0`) where IEEE-754 produces
non-finite values; every place where this matters is either guarded by the
same condition the source checks, or noted in the doc comment of the
definition.  Fallible Rust functions returning `Result` become
`Except String`, with the source's error messages kept verbatim; `unwrap`
panics that the claims care about are modelled by `Option` (with `none` for
the panic).  `Rc` reference identity is modelled by a numeric address field.
-/

namespace Umbralux

noncomputable section

/-- machine epsilon of `f64` (`f64::EPSILON` = 2⁻⁵²).  Used by
`src/core/base_types.rs` (`is_number_equal`) and by
`src/objects/plane.rs` (`local_intersect`). -/
def EPSILON : ℝ := 1 / 2 ^ 52

/-- embedding of `is_number_equal` from `src/core/base_types.rs`:
`(a - b).abs() < EPSILON`. -/
def is_number_equal (a b : ℝ) : Prop := |a - b| < EPSILON

instance (a b : ℝ) : Decidable (is_number_equal a b) :=
  Real.decidableLT _ _

/-- embedding of `Point` from `src/core.rs` (the tuple struct
`Point(f64, f64, f64)`). -/
structure Point where
  x : ℝ
  y : ℝ
  z : ℝ

/-- embedding of `Vector` from `src/core.rs`. -/
structure Vector where
  x : ℝ
  y : ℝ
  z : ℝ

/-- embedding of `Color` from `src/core.rs` (components `red, green, blue`). -/
structure Color where
  red : ℝ
  green : ℝ
  blue : ℝ

/-- embedding of `impl Add<Vector> for Point` from `src/core.rs`. -/
def Point.addV (p : Point) (v : Vector) : Point :=
  ⟨p.x + v.x, p.y + v.y, p.z + v.z⟩

/-- embedding of `impl Sub for Point` (point minus point is a vector)
from `src/core.rs`. -/
def Point.sub (p q : Point) : Vector :=
  ⟨p.x - q.x, p.y - q.y, p.z - q.z⟩

/-- embedding of `impl Add for Vector` from `src/core.rs`. -/
def Vector.add (v w : Vector) : Vector :=
  ⟨v.x + w.x, v.y + w.y, v.z + w.z⟩

/-- embedding of `impl Sub for Vector` from `src/core.rs`. -/
def Vector.sub (v w : Vector) : Vector :=
  ⟨v.x - w.x, v.y - w.y, v.z - w.z⟩

/-- embedding of `impl Mul<f64> for Vector` (and the symmetric
`impl Mul<Vector> for f64`) from `src/core.rs`. -/
def Vector.smul (v : Vector) (s : ℝ) : Vector :=
  ⟨v.x * s, v.y * s, v.z * s⟩

/-- embedding of `Vector::dot` from `src/core.rs`. -/
def Vector.dot (v w : Vector) : ℝ :=
  v.x * w.x + v.y * w.y + v.z * w.z

/-- embedding of `Vector::magnitude` from `src/core.rs`:
`(x*x + y*y + z*z).sqrt()`. -/
noncomputable def Vector.magnitude (v : Vector) : ℝ :=
  Real.sqrt (v.x * v.x + v.y * v.y + v.z * v.z)

/-- embedding of `Vector::normalize` from `src/core.rs`.  For the zero
vector `f64` produces NaN components while this embedding produces zeros
(`x / 0 = 0` in Lean); no claim below touches that case. -/
noncomputable def Vector.normalize (v : Vector) : Vector :=
  ⟨v.x / v.magnitude, v.y / v.magnitude, v.z / v.magnitude⟩

/-- embedding of `Vector::reflect` from `src/core.rs`:
`*self - 2.0 * surface_norm * self.dot(surface_norm)` where
`surface_norm = surface.normalize()`. -/
noncomputable def Vector.reflect (v surface : Vector) : Vector :=
  Vector.sub v (((surface.normalize).smul 2).smul (v.dot surface.normalize))

/-- embedding of `impl Add for Color` from `src/core.rs`. -/
def Color.add (c d : Color) : Color :=
  ⟨c.red + d.red, c.green + d.green, c.blue + d.blue⟩

/-- embedding of `impl Sub for Color` from `src/core.rs`. -/
def Color.sub (c d : Color) : Color :=
  ⟨c.red - d.red, c.green - d.green, c.blue - d.blue⟩

/-- embedding of `impl Mul<f64> for Color` from `src/core.rs`. -/
def Color.smul (c : Color) (s : ℝ) : Color :=
  ⟨c.red * s, c.green * s, c.blue * s⟩

/-- embedding of `impl Mul<Color> for Color` (the Hadamard product)
from `src/core.rs`. -/
def Color.hadamard (c d : Color) : Color :=
  ⟨c.red * d.red, c.green * d.green, c.blue * d.blue⟩

/-- embedding of `Matrix<T>` from `src/matrix.rs` (the generic matrix used
by the rendering pipeline, instantiated at `T = f64` there; embedded at
`ℝ`).  Fields mirror the Rust struct: row count `n`, column count `m`,
row-major `elements`. -/
structure Matrix where
  n : ℕ
  m : ℕ
  elements : List (List ℝ)

/-- embedding of `Matrix::get` from `src/matrix.rs` (out-of-range access
panics in Rust; the claims below only read in-range entries). -/
def Matrix.get (M : Matrix) (row col : ℕ) : ℝ :=
  (M.elements.getD row []).getD col 0

/-- embedding of `Matrix::identity` from `src/matrix.rs` (a zero matrix with
the diagonal set to one). -/
def Matrix.identity (n : ℕ) : Matrix :=
  ⟨n, n, (List.range n).map fun i => (List.range n).map fun j =>
    if i = j then (1 : ℝ) else 0⟩

/-- embedding of `Matrix::sub_matrix` from `src/matrix.rs`: drop row `row`
and column `col`; the dimension fields are set to `n - 1` and `m - 1`
exactly as the Rust constructor literal does. -/
def Matrix.sub_matrix (M : Matrix) (row col : ℕ) : Matrix :=
  ⟨M.n - 1, M.m - 1, (M.elements.eraseIdx row).map fun r => r.eraseIdx col⟩

/-- embedding of the recursion inside `Matrix::determinant` from
`src/matrix.rs`: cofactor expansion along row 0 with alternating sign,
base case size 1.  The first argument is the `n` field of the matrix on
which `determinant` is called; every recursive call in the source is on
`sub_matrix(0, col)`, whose `n` field is one smaller, so the recursion is
structural in `n`.  For `n = 0` the Rust loop body never runs and the
accumulator `T::zero()` is returned. -/
def Matrix.detGo : ℕ → List (List ℝ) → ℝ
  | 0, _ => 0
  | 1, e => (e.getD 0 []).getD 0 0
  | Nat.succ (Nat.succ k), e =>
      (List.range (k + 2)).foldl
        (fun acc col =>
          acc + (-1 : ℝ) ^ col * ((e.getD 0 []).getD col 0) *
            Matrix.detGo (k + 1) ((e.eraseIdx 0).map fun r => r.eraseIdx col))
        0

/-- embedding of `Matrix::determinant` from `src/matrix.rs`.  The inner
`unwrap()` on recursive sub-determinants never fails in the source because
every sub-matrix of a square matrix is square; `detGo` is that always
succeeding recursion. -/
def Matrix.determinant (M : Matrix) : Except String ℝ :=
  if M.n ≠ M.m then
    .error "Determinant can not be calculated for non-square matrices"
  else
    .ok (Matrix.detGo M.n M.elements)

/-- embedding of `Matrix::invert` from `src/matrix.rs`.  Note: the source
checks only squareness, never the determinant; with a zero determinant the
`f64` entries become non-finite while this embedding yields zeros
(`x / 0 = 0`), but in both cases the function returns a success value.
The imperative fill `inv.set(c, r, sign * det_sub / det)` for `r` in
`0..n`, `c` in `0..m` is rendered functionally: the entry at row `i`,
column `j` of the result is the value written with `r = j`, `c = i`. -/
def Matrix.invert (M : Matrix) : Except String Matrix :=
  if M.n ≠ M.m then
    .error "Non-sqare matrices can not be inverted"
  else
    .ok ⟨M.m, M.n,
      (List.range M.n).map fun i => (List.range M.n).map fun j =>
        (-1 : ℝ) ^ (j + i) *
          Matrix.detGo (M.n - 1) ((M.sub_matrix j i).elements) /
          Matrix.detGo M.n M.elements⟩

/-- embedding of `Matrix::sum_of_products` from `src/matrix.rs`
(`ret = vals1[0]*vals2[0]` then adds indices `1..n`; every call site has
`n ≥ 1`, where this sum over `0..n` coincides). -/
def Matrix.sum_of_products (n : ℕ) (vals1 vals2 : List ℝ) : ℝ :=
  (List.range n).foldl (fun acc i => acc + vals1.getD i 0 * vals2.getD i 0) 0

/-- embedding of `Matrix::multiply` from `src/matrix.rs`. -/
def Matrix.multiply (A B : Matrix) : Except String Matrix :=
  if A.m ≠ B.n then
    .error "Matrix sizes do not match for multiplication"
  else
    .ok ⟨A.n, B.m,
      (List.range A.n).map fun row => (List.range B.m).map fun col =>
        Matrix.sum_of_products A.m (A.elements.getD row [])
          ((List.range B.n).map fun i => B.get i col)⟩

/-- embedding of `Matrix::transpose` from `src/matrix.rs`. -/
def Matrix.transpose (M : Matrix) : Matrix :=
  ⟨M.m, M.n, (List.range M.m).map fun colIdx =>
    (List.range M.n).map fun rowIdx => M.get rowIdx colIdx⟩

/-- embedding of `From<Point> for Matrix<f64>` from `src/matrix.rs`
(a 4×1 column with homogeneous coordinate 1). -/
def Matrix.ofPoint (p : Point) : Matrix :=
  ⟨4, 1, [[p.x], [p.y], [p.z], [1]]⟩

/-- embedding of `From<Vector> for Matrix<f64>` from `src/matrix.rs`
(a 4×1 column with homogeneous coordinate 0). -/
def Matrix.ofVector (v : Vector) : Matrix :=
  ⟨4, 1, [[v.x], [v.y], [v.z], [0]]⟩

/-- embedding of `Matrix` from `src/core/matrix.rs` (the second matrix
module of the repository, over `Number = f64`). -/
structure CoreMatrix where
  num_rows : ℕ
  num_cols : ℕ
  data : List (List ℝ)

/-- embedding of `Matrix::get` from `src/core/matrix.rs`. -/
def CoreMatrix.get (M : CoreMatrix) (row col : ℕ) : ℝ :=
  (M.data.getD row []).getD col 0

/-- embedding of `Matrix::new_with_data` from `src/core/matrix.rs`
(`num_rows = data.len()`, `num_cols = data[0].len()`; the Rust indexing
`data[0]` panics on empty input, which only happens for the sub-matrix of
a 1×1 matrix — here `getD 0 []` yields column count 0 instead). -/
def CoreMatrix.new_with_data (d : List (List ℝ)) : CoreMatrix :=
  ⟨d.length, (d.getD 0 []).length, d⟩

/-- embedding of `Matrix::sub_matrix` from `src/core/matrix.rs`: the Rust
loops copy every row except `row_idx` and every column except `col_idx`,
which on well-formed data (row count `num_rows`, row length `num_cols`)
is exactly `eraseIdx`. -/
def CoreMatrix.sub_matrix (M : CoreMatrix) (row_idx col_idx : ℕ) : CoreMatrix :=
  CoreMatrix.new_with_data ((M.data.eraseIdx row_idx).map fun r => r.eraseIdx col_idx)

/-- embedding of the recursion inside `Matrix::determinant` from
`src/core/matrix.rs` (same cofactor expansion as the generic module; the
`?` on recursive sub-determinants never fires because sub-matrices of
square matrices are square).  The first argument is the `num_rows` field. -/
def CoreMatrix.detGo : ℕ → List (List ℝ) → ℝ
  | 0, _ => 0
  | 1, d => (d.getD 0 []).getD 0 0
  | Nat.succ (Nat.succ k), d =>
      (List.range (k + 2)).foldl
        (fun acc col =>
          acc + (-1 : ℝ) ^ col * ((d.getD 0 []).getD col 0) *
            CoreMatrix.detGo (k + 1) ((d.eraseIdx 0).map fun r => r.eraseIdx col))
        0

/-- embedding of `Matrix::determinant` from `src/core/matrix.rs`. -/
def CoreMatrix.determinant (M : CoreMatrix) : Except String ℝ :=
  if M.num_rows ≠ M.num_cols then
    .error "Determinant is only defined for square matrices"
  else
    .ok (CoreMatrix.detGo M.num_rows M.data)

/-- embedding of `Matrix::invert` from `src/core/matrix.rs`: fails for
non-square matrices and when the determinant is within epsilon of zero
(`is_number_equal(det, 0.0)`); otherwise fills row `r`, column `c` with
`sign(r,c) * sub_matrix(c, r).determinant() / det` where the sign starts
at `(-1)^r` for `c = 0` and alternates, i.e. equals `(-1)^(r+c)`.
The Rust code panics (in `new_with_data`) when building the 0×0 sub-matrix
of a 1×1 matrix; this embedding is faithful for sizes other than 1, and
the theorem about the success case is stated for sizes ≥ 2. -/
def CoreMatrix.invert (M : CoreMatrix) : Except String CoreMatrix :=
  if M.num_rows ≠ M.num_cols then
    .error "Cannot invert non-square matrix"
  else
    if is_number_equal (CoreMatrix.detGo M.num_rows M.data) 0 then
      .error "Cannot invert matrix with zero determinant"
    else
      .ok (CoreMatrix.new_with_data
        ((List.range M.num_rows).map fun r => (List.range M.num_cols).map fun c =>
          (-1 : ℝ) ^ (r + c) *
            CoreMatrix.detGo (M.num_rows - 1) ((M.sub_matrix c r).data) /
            CoreMatrix.detGo M.num_rows M.data))

/-- embedding of `transform` from `src/transform.rs` specialized to `Point`:
convert to a 4×1 homogeneous column, multiply, convert back.  The
`TryFrom<Matrix<f64>> for Point` conversion fails when the result has fewer
than 3 rows or not exactly 1 column; `transform` maps that failure to the
message "Conversion failed". -/
def transform_point (trans : Matrix) (p : Point) : Except String Point :=
  match trans.multiply (Matrix.ofPoint p) with
  | .error e => .error e
  | .ok transformed =>
    if transformed.n < 3 ∨ transformed.m ≠ 1 then
      .error "Conversion failed"
    else
      .ok ⟨transformed.get 0 0, transformed.get 1 0, transformed.get 2 0⟩

/-- embedding of `transform` from `src/transform.rs` specialized to
`Vector`. -/
def transform_vector (trans : Matrix) (v : Vector) : Except String Vector :=
  match trans.multiply (Matrix.ofVector v) with
  | .error e => .error e
  | .ok transformed =>
    if transformed.n < 3 ∨ transformed.m ≠ 1 then
      .error "Conversion failed"
    else
      .ok ⟨transformed.get 0 0, transformed.get 1 0, transformed.get 2 0⟩

/-- embedding of `Ray` from `src/objects/ray.rs`. -/
structure Ray where
  origin : Point
  direction : Vector

/-- embedding of `Ray::position` from `src/objects/ray.rs`:
`origin + t * direction`. -/
def Ray.position (r : Ray) (t : ℝ) : Point :=
  r.origin.addV (r.direction.smul t)

/-- embedding of `Ray::transform` from `src/objects/ray.rs`.  The source
unwraps the two `transform` results (panicking on failure); the panic is
modelled by propagating the error. -/
def Ray.transform (r : Ray) (m : Matrix) : Except String Ray :=
  match transform_point m r.origin with
  | .error e => .error e
  | .ok o =>
    match transform_vector m r.direction with
    | .error e => .error e
    | .ok d => .ok ⟨o, d⟩

/-- embedding of `PatternKind` from `src/features/pattern.rs`. -/
inductive PatternKind where
  | stripes
  | gradient
  | ring
  | checkers3d

/-- embedding of the pattern data of `src/features/pattern.rs` as a closed
inductive:  `SolidPattern` is the `solid` case; `NestedPattern` (a kind, two
child `Rc<dyn Pattern>` trees and a transformation) is the `nested` case.
`TwoColorPattern` wraps a `NestedPattern` with two solid children and is
represented by `two_color_stripes` below. -/
inductive Pattern where
  | solid (color : Color)
  | nested (kind : PatternKind) (pattern_a pattern_b : Pattern) (transf : Matrix)

/-- embedding of `Pattern::transformation`: `SolidPattern` always reports
the 4×4 identity; `NestedPattern` reports its stored transformation. -/
def Pattern.transformation : Pattern → Matrix
  | .solid _ => Matrix.identity 4
  | .nested _ _ _ t => t

/-- embedding of `NestedPattern::color_at` (dispatching to
`stripes_color_at`, `gradient_color_at`, `ring_color_at`,
`checkers3d_color_at` from `src/features/pattern.rs`) together with
`SolidPattern::color_at`.  Rust's `%` on `i64` is the truncating remainder,
`Int.tmod`; `x.floor().to_i64().unwrap()` is `⌊x⌋` (the unwrap panics only
for floats beyond the `i64` range, which is not modelled). -/
noncomputable def Pattern.color_at : Pattern → Point → Color
  | .solid c, _ => c
  | .nested k a b _, pt =>
    match k with
    | .stripes =>
        if (⌊pt.x⌋).tmod 2 = 0 then a.color_at pt else b.color_at pt
    | .gradient =>
        (a.color_at pt).add
          (((b.color_at pt).sub (a.color_at pt)).smul (pt.x - ⌊pt.x⌋))
    | .ring =>
        if (⌊Real.sqrt (pt.x ^ 2 + pt.z ^ 2)⌋).tmod 2 = 0 then
          a.color_at pt
        else b.color_at pt
    | .checkers3d =>
        if (⌊pt.x⌋ + ⌊pt.y⌋ + ⌊pt.z⌋ : ℤ).tmod 2 = 0 then
          a.color_at pt
        else b.color_at pt

/-- embedding of `TwoColorPattern::new_stripes` from
`src/features/pattern.rs` (a `NestedPattern` with two `SolidPattern`
children and the identity transformation). -/
def two_color_stripes (color_a color_b : Color) : Pattern :=
  .nested .stripes (.solid color_a) (.solid color_b) (Matrix.identity 4)

/-- embedding of the reference-counted pattern handle `Rc<dyn Pattern>`:
`addr` models the heap address, so `Rc::ptr_eq` is address equality. -/
structure RcPattern where
  addr : ℕ
  val : Pattern

/-- embedding of `Rc::ptr_eq` on pattern handles. -/
def rc_ptr_eq (a b : RcPattern) : Prop := a.addr = b.addr

/-- embedding of `Material` from `src/features/material.rs`. -/
structure Material where
  color : Color
  pattern : Option RcPattern
  ambient : ℝ
  diffuse : ℝ
  specular : ℝ
  shininess : ℝ

/-- embedding of `impl PartialEq for Material` (`eq`) from
`src/features/material.rs`, lines 82–127, rendering the early-return chain
as a conjunction.  Note the source's pattern comparison verbatim: when both
patterns are present it returns `false` exactly when `Rc::ptr_eq` is TRUE,
and falls through (pattern considered compatible) when the two references
are distinct. -/
def material_eq (a b : Material) : Prop :=
  a.color = b.color ∧
  (match a.pattern, b.pattern with
   | some pattern, some other_pattern => ¬ rc_ptr_eq pattern other_pattern
   | some _, none => False
   | none, some _ => False
   | none, none => True) ∧
  a.ambient = b.ambient ∧ a.diffuse = b.diffuse ∧
  a.specular = b.specular ∧ a.shininess = b.shininess

/-- embedding of `MaterialBuilder::new().build()` defaults from
`src/features/material.rs`: white color, no pattern, ambient 0.1,
diffuse 0.9, specular 0.9, shininess 200. -/
noncomputable def default_material : Material :=
  ⟨⟨1, 1, 1⟩, none, 0.1, 0.9, 0.9, 200⟩

/-- embedding of the `Object3D` implementors of `src/objects/sphere.rs`
and `src/objects/plane.rs` as a closed inductive, each carrying its
(mutable in Rust, snapshot here) transformation and material. -/
inductive Object where
  | sphere (origin : Point) (radius : ℝ) (transf : Matrix) (material : Material)
  | plane (transf : Matrix) (material : Material)

/-- embedding of `Object3D::transformation` (the getter) for both
variants. -/
def Object.transformation : Object → Matrix
  | .sphere _ _ t _ => t
  | .plane t _ => t

/-- embedding of `Object3D::material` (the getter) for both variants. -/
def Object.material : Object → Material
  | .sphere _ _ _ mat => mat
  | .plane _ mat => mat

/-- embedding of `Sphere::local_intersect` (src/objects/sphere.rs, lines
40–59) and `Plane::local_intersect` (src/objects/plane.rs, lines 33–40).
For the sphere, `a` is the ray origin, `b` its direction, `c` the sphere
origin, `d = a - c`; with `b2 = b·b`, `p = b·d / b2`, `q = (d·d - r²)/b2`
and `x = p² - q`, the roots `-p ∓ √x` are pushed when `x ≥ 0`.  For a zero
direction the `f64` code produces NaN (hence an empty list) while this
embedding divides by zero; claims about the sphere case therefore assume a
non-zero direction.  The plane returns no root when `|direction.y|` is
within `f64::EPSILON` of zero, else the single root `-origin.y /
direction.y`. -/
noncomputable def Object.local_intersect : Object → Ray → List ℝ
  | .sphere c R _ _, r =>
    let a := r.origin
    let b := r.direction
    let d := a.sub c
    let b2 := b.dot b
    let p := b.dot d / b2
    let q := (d.dot d - R * R) / b2
    let x := p * p - q
    if 0 ≤ x then [-p - Real.sqrt x, -p + Real.sqrt x] else []
  | .plane _ _, r =>
    if |r.direction.y| < EPSILON then [] else [-1 * r.origin.y / r.direction.y]

/-- embedding of the default `Object3D::intersect` (src/objects/object3d.rs,
lines 13–18): transform the ray by the unwrapped inverse of the object's
transformation, then delegate to `local_intersect`.  The two `unwrap`
panics (of `invert` and of `Ray::transform`) are modelled by `none`. -/
noncomputable def Object.intersect (o : Object) (r : Ray) : Option (List ℝ) :=
  match (o.transformation.invert).toOption with
  | none => none
  | some inv =>
    match (r.transform inv).toOption with
    | none => none
    | some local_ray => some (o.local_intersect local_ray)

/-- total variant of `Object.intersect` used by the world layer: on the
panic paths (unreachable for the 4×4 transformations the library
constructs, see the theorem for claim C9) it returns the empty list. -/
noncomputable def Object.intersect_total (o : Object) (r : Ray) : List ℝ :=
  (o.intersect r).getD []

/-- embedding of `Sphere::local_normal_at` (`point - origin`) and
`Plane::local_normal_at` (the constant `(0,1,0)`). -/
def Object.local_normal_at : Object → Point → Vector
  | .sphere c _ _ _, p => p.sub c
  | .plane _ _, _ => ⟨0, 1, 0⟩

/-- embedding of the default `Object3D::normal_at` (src/objects/object3d.rs,
lines 20–28): inverse transform the point, take the local normal, transform
it by the transpose of the inverse, and normalize.  The `unwrap`s are given
junk defaults, unreachable for 4×4 transformations. -/
noncomputable def Object.normal_at (o : Object) (pt : Point) : Vector :=
  let t_inv := (o.transformation.invert).toOption.getD (Matrix.identity 4)
  let local_point := (transform_point t_inv pt).toOption.getD ⟨0, 0, 0⟩
  let local_normal := o.local_normal_at local_point
  let t := t_inv.transpose
  let normal := (transform_vector t local_normal).toOption.getD ⟨0, 0, 0⟩
  normal.normalize

/-- embedding of `Pattern::color_at_object` from `src/features/pattern.rs`:
world point → object space (object's inverse transform) → pattern space
(pattern's inverse transform) → `color_at`.  The `unwrap`s are given junk
defaults, unreachable for 4×4 transformations. -/
noncomputable def Pattern.color_at_object (p : Pattern) (object : Object) (pt : Point) : Color :=
  let object_pt :=
    (transform_point ((object.transformation.invert).toOption.getD (Matrix.identity 4)) pt).toOption.getD
      ⟨0, 0, 0⟩
  let pattern_pt :=
    (transform_point ((p.transformation.invert).toOption.getD (Matrix.identity 4)) object_pt).toOption.getD
      ⟨0, 0, 0⟩
  p.color_at pattern_pt

/-- embedding of `Intersection` from `src/objects/object3d.rs` (a hit
parameter, the originating ray and the object hit). -/
structure Intersection where
  ray : Ray
  t : ℝ
  partner : Object

/-- embedding of `find_intersections` from `src/objects/object3d.rs`:
each root becomes an `Intersection`. -/
noncomputable def find_intersections (r : Ray) (partner : Object) : List Intersection :=
  (partner.intersect_total r).map fun t => ⟨r, t, partner⟩

/-- embedding of `find_many_intersections` from `src/objects/object3d.rs`. -/
noncomputable def find_many_intersections (r : Ray) (partners : List Object) : List Intersection :=
  partners.foldl (fun ret partner => ret ++ find_intersections r partner) []

/-- embedding of the loop body of `find_hit` from `src/objects/object3d.rs`
(lines 58–77): intersections with `t < 0` are skipped; otherwise the held
minimum is kept when `ret.t <= t` and replaced when the new parameter is
strictly smaller, so ties keep the first-seen intersection. -/
noncomputable def find_hit_go : Option Intersection → List Intersection → Option Intersection
  | ret, [] => ret
  | ret, intersection :: rest =>
    find_hit_go
      (if intersection.t < 0 then ret
       else
         match ret with
         | some intersection_min =>
             if intersection_min.t ≤ intersection.t then some intersection_min
             else some intersection
         | none => some intersection)
      rest

/-- embedding of `find_hit` from `src/objects/object3d.rs`. -/
noncomputable def find_hit (intersections : List Intersection) : Option Intersection :=
  find_hit_go none intersections

/-- embedding of `ComputationResult` from `src/objects/object3d.rs`. -/
structure ComputationResult where
  t : ℝ
  ray : Ray
  object : Object
  point : Point
  over_point : Point
  eye_dir : Vector
  normal : Vector
  inside : Bool

/-- embedding of `Intersection::prepare_computations` from
`src/objects/object3d.rs` (lines 111–133): hit point, eye direction
`-1 * direction.normalize()`, normal (flipped when the eye and the normal
oppose), and the over point nudged by `1.0E-5` along the normal. -/
noncomputable def Intersection.prepare_computations (i : Intersection) : ComputationResult :=
  let pt := i.ray.position i.t
  let eye_dir := (i.ray.direction.normalize).smul (-1)
  let normal0 := (i.partner.normal_at pt).normalize
  let inside : Bool := decide (eye_dir.dot normal0 < 0)
  let normal := if inside then normal0.smul (-1) else normal0
  let over_point := pt.addV (normal.smul (1 / 100000))
  ⟨i.t, i.ray, i.partner, pt, over_point, eye_dir, normal, inside⟩

/-- embedding of `PointLight` from `src/features/light.rs`. -/
structure PointLight where
  intensity : Color
  position : Point

/-- embedding of `lighting` from `src/features/light.rs` (lines 12–66).
The mutable `diffuse`/`specular` (initialized to black and conditionally
overwritten) are rendered as a pair computed by the same branch structure;
the result is `ambient + diffuse + specular`. -/
noncomputable def lighting (material : Material) (object : Object) (light : PointLight)
    (position : Point) (camera : Vector) (surface : Vector) (in_shadow : Bool) : Color :=
  let normal := surface.normalize
  let black : Color := ⟨0, 0, 0⟩
  let color :=
    match material.pattern with
    | some pattern => pattern.val.color_at_object object position
    | none => material.color
  let effective_color := color.hadamard light.intensity
  let light_v := (light.position.sub position).normalize
  let ambient := effective_color.smul material.ambient
  let ds : Color × Color :=
    if in_shadow then (black, black)
    else
      let light_dot_normal := light_v.dot normal
      if 0 ≤ light_dot_normal then
        let diffuse := (effective_color.smul material.diffuse).smul light_dot_normal
        let reflect_v := (light_v.reflect normal).smul (-1)
        let reflect_dot_camera := reflect_v.dot camera
        if 0 < reflect_dot_camera then
          (diffuse,
            (light.intensity.smul material.specular).smul
              (Real.rpow reflect_dot_camera material.shininess))
        else (diffuse, black)
      else (black, black)
  (ambient.add ds.1).add ds.2

/-- embedding of `World` from `src/objects/world.rs` (an object list and an
optional light). -/
structure World where
  objects : List Object
  light : Option PointLight

/-- embedding of `World::find_intersections` (src/objects/world.rs, lines
50–57): collect against every object, then stable-sort ascending by the
parameter (Rust's `sort_by` with `partial_cmp`; total over `ℝ`). -/
noncomputable def World.find_intersections (w : World) (r : Ray) : List Intersection :=
  (find_many_intersections r w.objects).mergeSort fun a b => decide (a.t ≤ b.t)

/-- embedding of `World::is_shadowed` (src/objects/world.rs, lines 87–101):
cast a ray from the light position with direction `point - light.position`;
shadowed exactly when the hit of that ray has `t < 1`; no light means no
shadow. -/
noncomputable def World.is_shadowed (w : World) (pt : Point) : Bool :=
  match w.light with
  | some light =>
    let origin := light.position
    let direction := pt.sub origin
    let ray : Ray := ⟨origin, direction⟩
    match find_hit (w.find_intersections ray) with
    | some hit => decide (hit.t < 1)
    | none => false
  | none => false

/-- embedding of `World::shade_hit` (src/objects/world.rs, lines 63–74):
evaluate `is_shadowed` at the over point and light the hit.  The source
unwraps `self.light` (panicking when no light is set); the panic is
modelled by `none`. -/
noncomputable def World.shade_hit (w : World) (comp_res : ComputationResult) : Option Color :=
  match w.light with
  | none => none
  | some light =>
    some (lighting (comp_res.object.material) comp_res.object light comp_res.over_point
      comp_res.eye_dir comp_res.normal (w.is_shadowed comp_res.over_point))

/-- embedding of `World::color_at_ray_hit` (src/objects/world.rs, lines
76–85): black when nothing is hit, else shade the prepared hit. -/
noncomputable def World.color_at_ray_hit (w : World) (r : Ray) : Option Color :=
  match find_hit (w.find_intersections r) with
  | some hit => w.shade_hit hit.prepare_computations
  | none => some ⟨0, 0, 0⟩

/-- sample fixtures used by concrete witnesses: a unit sphere with the
identity transformation and the default material, and a ray from
`(0,0,-5)` toward `+z` (as in the source's own tests). -/
noncomputable def sample_object : Object :=
  .sphere ⟨0, 0, 0⟩ 1 (Matrix.identity 4) default_material

/-- sample ray fixture (origin `(0,0,-5)`, direction `(0,0,1)`). -/
def sample_ray : Ray := ⟨⟨0, 0, -5⟩, ⟨0, 0, 1⟩⟩

end

/-! Theorems.  Each claim of the specification gets exactly one named
theorem below; shared helper lemmas come first. -/

/-- helper: Rust's truncating `%` and the mathematical remainder agree on
the test for evenness. -/
theorem tmod_two_eq_zero_iff_emod (n : ℤ) : n.tmod 2 = 0 ↔ n % 2 = 0 := by
  constructor <;> intro h
  · have hdvd : (2 : ℤ) ∣ n := by
      have hd := Int.tmod_add_tdiv n 2
      exact ⟨n.tdiv 2, by omega⟩
    omega
  · exact Int.tmod_eq_zero_of_dvd (by omega)

/-- helper: reading an in-range entry of a list built from `List.range`. -/
theorem getD_map_range {α : Type} (f : ℕ → α) {n i : ℕ} (d : α) (h : i < n) :
    ((List.range n).map f).getD i d = f i := by
  rw [List.getD_eq_getElem?_getD, List.getElem?_map, List.getElem?_range h]
  rfl

/-- C2 (amended): `invert()` fails on every non-square matrix in both
matrix modules; the core module's `Matrix::invert` additionally fails when
the determinant is within epsilon of zero, while the generic
`Matrix::invert` of `src/matrix.rs` performs no determinant check and
returns a success result even for singular square matrices (see the
counterexample); in the success cases the entry `(r,c)` of the result is
`sign(r,c) * minorDeterminant(c,r) / det` (for the core module stated for
sizes ≥ 2; its 1×1 success case panics inside `new_with_data`). -/
theorem C2_invert_adjugate :
    (∀ M : Matrix, M.n ≠ M.m →
      M.invert = .error "Non-sqare matrices can not be inverted") ∧
    (∀ M : Matrix, M.n = M.m →
      ∃ inv, M.invert = .ok inv ∧ inv.n = M.m ∧ inv.m = M.n ∧
        ∀ r c, r < M.n → c < M.n →
          inv.get r c =
            (-1 : ℝ) ^ (r + c) *
              Matrix.detGo (M.n - 1) ((M.sub_matrix c r).elements) /
              Matrix.detGo M.n M.elements) ∧
    (∀ M : CoreMatrix, M.num_rows ≠ M.num_cols →
      M.invert = .error "Cannot invert non-square matrix") ∧
    (∀ M : CoreMatrix, M.num_rows = M.num_cols →
      is_number_equal (CoreMatrix.detGo M.num_rows M.data) 0 →
      M.invert = .error "Cannot invert matrix with zero determinant") ∧
    (∀ M : CoreMatrix, M.num_rows = M.num_cols → 2 ≤ M.num_rows →
      ¬ is_number_equal (CoreMatrix.detGo M.num_rows M.data) 0 →
      ∃ inv, M.invert = .ok inv ∧
        ∀ r c, r < M.num_rows → c < M.num_cols →
          inv.get r c =
            (-1 : ℝ) ^ (r + c) *
              CoreMatrix.detGo (M.num_rows - 1) ((M.sub_matrix c r).data) /
              CoreMatrix.detGo M.num_rows M.data) := by
  refine ⟨?_, ?_, ?_, ?_, ?_⟩
  · intro M h
    rw [Matrix.invert, if_pos h]
  · intro M h
    refine ⟨_, by rw [Matrix.invert, if_neg (by simp [h])], rfl, rfl, ?_⟩
    intro r c hr hc
    show ((((List.range M.n).map _).getD r []).getD c 0) = _
    rw [getD_map_range _ _ hr, getD_map_range _ _ hc, Nat.add_comm c r]
  · intro M h
    rw [CoreMatrix.invert, if_pos h]
  · intro M h hdet
    rw [CoreMatrix.invert, if_neg (by simp [h]), if_pos hdet]
  · intro M h _ hdet
    refine ⟨_, by rw [CoreMatrix.invert, if_neg (by simp [h]), if_neg hdet], ?_⟩
    intro r c hr hc
    show ((((List.range M.num_rows).map _).getD r []).getD c 0) = _
    rw [getD_map_range _ _ hr, getD_map_range _ _ hc]

/-- C2, counterexample: the generic `Matrix::invert` of `src/matrix.rs`
(used by the rendering pipeline) returns a SUCCESS value on a square
matrix whose determinant is zero — the claim says every such inversion
must yield a failure result. -/
theorem C2_counterexample :
    is_number_equal (Matrix.detGo 2 [[1, 2], [2, 4]]) 0 ∧
    (Matrix.invert ⟨2, 2, [[1, 2], [2, 4]]⟩).isOk = true := by
  constructor
  · have hdet : Matrix.detGo 2 [[(1 : ℝ), 2], [2, 4]] = 0 := by
      simp [Matrix.detGo, List.range_succ]
      norm_num
    rw [is_number_equal, hdet, EPSILON]
    norm_num
  · rw [Matrix.invert, if_neg (by simp)]
    rfl

/-- C2, witness: the non-square branch of the amended theorem applied to a
concrete 2×3 matrix. -/
theorem C2_invert_adjugate_witness :
    (Matrix.mk 2 3 [[1, 2, 3], [4, 5, 6]]).n ≠ (Matrix.mk 2 3 [[1, 2, 3], [4, 5, 6]]).m ∧
    Matrix.invert ⟨2, 3, [[1, 2, 3], [4, 5, 6]]⟩ =
      .error "Non-sqare matrices can not be inverted" :=
  ⟨by decide, C2_invert_adjugate.1 _ (by decide)⟩

/-- C1: the claim states that two materials holding the very same pattern
reference and equal scalars compare equal, and that equality requires an
identical pattern reference.  The code does the opposite: `Material::eq`
returns `false` when `Rc::ptr_eq` is TRUE (an inverted check), and treats
two DISTINCT pattern references as compatible.  This theorem evaluates the
embedded `eq` at the failing inputs: a material with a pattern is unequal
to itself (same reference, equal scalars), while two materials with
distinct pattern references and equal scalars compare equal. -/
theorem C1_material_eq_inverted :
    ¬ material_eq
        ⟨⟨1, 1, 1⟩, some ⟨7, two_color_stripes ⟨1, 1, 1⟩ ⟨0, 0, 0⟩⟩, 0.1, 0.9, 0.9, 200⟩
        ⟨⟨1, 1, 1⟩, some ⟨7, two_color_stripes ⟨1, 1, 1⟩ ⟨0, 0, 0⟩⟩, 0.1, 0.9, 0.9, 200⟩ ∧
    material_eq
        ⟨⟨1, 1, 1⟩, some ⟨1, two_color_stripes ⟨1, 1, 1⟩ ⟨0, 0, 0⟩⟩, 0.1, 0.9, 0.9, 200⟩
        ⟨⟨1, 1, 1⟩, some ⟨2, two_color_stripes ⟨1, 1, 1⟩ ⟨0, 0, 0⟩⟩, 0.1, 0.9, 0.9, 200⟩ := by
  constructor
  · rintro ⟨-, h2, -⟩
    exact h2 rfl
  · exact ⟨rfl, by simp [rc_ptr_eq], rfl, rfl, rfl, rfl⟩

/-- C6: `Plane::local_intersect` returns the empty list exactly when the
absolute value of the local ray direction's y-component is within epsilon
of zero (regardless of the origin's height), and otherwise the single root
`-origin.y / direction.y`; a ray from `y = 1` with direction `(0,-1,1)`
yields exactly the root `t = 1`. -/
theorem C6_plane_local_intersect :
    ∀ (transf : Matrix) (material : Material) (r : Ray),
      (|r.direction.y| < EPSILON →
        (Object.plane transf material).local_intersect r = []) ∧
      (¬ |r.direction.y| < EPSILON →
        (Object.plane transf material).local_intersect r =
          [-1 * r.origin.y / r.direction.y]) ∧
      (Object.plane transf material).local_intersect ⟨⟨0, 1, 0⟩, ⟨0, -1, 1⟩⟩ = [1] := by
  intro transf material r
  refine ⟨fun h => ?_, fun h => ?_, ?_⟩
  · simp only [Object.local_intersect, if_pos h]
  · simp only [Object.local_intersect, if_neg h]
  · have hno : ¬ |(-1 : ℝ)| < EPSILON := by
      rw [EPSILON]
      rw [abs_of_nonpos (by norm_num)]
      norm_num
    simp only [Object.local_intersect, if_neg hno]
    norm_num

/-- C8: the stripes pattern with first color `a` and second color `b`
selects `a` exactly when `⌊x⌋ mod 2 = 0` and `b` otherwise (period 2,
boundaries at the integers); in particular `color_at` at `x = 0.9` is `a`,
at `x = 1.0` is `b`, at `x = -0.1` is `b` and at `x = -1.1` is `a`. -/
theorem C8_stripes_color_at :
    ∀ a b : Color,
      (∀ pt : Point,
        (two_color_stripes a b).color_at pt = if ⌊pt.x⌋ % 2 = 0 then a else b) ∧
      (two_color_stripes a b).color_at ⟨0.9, 0, 0⟩ = a ∧
      (two_color_stripes a b).color_at ⟨1.0, 0, 0⟩ = b ∧
      (two_color_stripes a b).color_at ⟨-0.1, 0, 0⟩ = b ∧
      (two_color_stripes a b).color_at ⟨-1.1, 0, 0⟩ = a := by
  intro a b
  have hgen : ∀ pt : Point,
      (two_color_stripes a b).color_at pt = if ⌊pt.x⌋ % 2 = 0 then a else b := by
    intro pt
    simp only [two_color_stripes, Pattern.color_at]
    rw [if_congr (tmod_two_eq_zero_iff_emod ⌊pt.x⌋) rfl rfl]
  refine ⟨hgen, ?_, ?_, ?_, ?_⟩
  · rw [hgen]
    have hf : ⌊(0.9 : ℝ)⌋ = 0 := by
      rw [Int.floor_eq_iff]
      norm_num
    rw [hf]
    norm_num
  · rw [hgen]
    have hf : ⌊(1.0 : ℝ)⌋ = 1 := by
      rw [Int.floor_eq_iff]
      norm_num
    rw [hf]
    norm_num
  · rw [hgen]
    have hf : ⌊(-0.1 : ℝ)⌋ = -1 := by
      rw [Int.floor_eq_iff]
      norm_num
    rw [hf]
    norm_num
  · rw [hgen]
    have hf : ⌊(-1.1 : ℝ)⌋ = -2 := by
      rw [Int.floor_eq_iff]
      norm_num
    rw [hf]
    norm_num

/-- C6, witness: the parallel-ray branch of the theorem applied to the
source's own test ray (origin `(0,10,0)`, direction `(0,0,1)`). -/
theorem C6_plane_local_intersect_witness :
    |(Ray.mk ⟨0, 10, 0⟩ ⟨0, 0, 1⟩).direction.y| < EPSILON ∧
    (Object.plane (Matrix.identity 4) default_material).local_intersect
      ⟨⟨0, 10, 0⟩, ⟨0, 0, 1⟩⟩ = [] :=
  ⟨by norm_num [EPSILON], (C6_plane_local_intersect _ _ _).1 (by norm_num [EPSILON])⟩

/-- helper: definitional unfolding of the `find_hit` loop on a cons cell. -/
theorem find_hit_go_cons (acc : Option Intersection) (i : Intersection)
    (rest : List Intersection) :
    find_hit_go acc (i :: rest) =
      find_hit_go
        (if i.t < 0 then acc
         else
           match acc with
           | some intersection_min =>
               if intersection_min.t ≤ i.t then some intersection_min else some i
           | none => some i) rest := rfl

/-- helper: definitional unfolding of the `find_hit` loop on the empty
list. -/
theorem find_hit_go_nil (acc : Option Intersection) : find_hit_go acc [] = acc := rfl

/-- helper: the `find_hit` loop yields no hit exactly when it started with
no candidate and every remaining intersection has a negative parameter. -/
theorem find_hit_go_none_iff (l : List Intersection) :
    ∀ acc, find_hit_go acc l = none ↔ acc = none ∧ ∀ i ∈ l, i.t < 0 := by
  induction l with
  | nil =>
    intro acc
    simp [find_hit_go]
  | cons i rest ih =>
    intro acc
    rw [find_hit_go_cons, ih]
    by_cases hneg : i.t < 0
    · rw [if_pos hneg]
      simp only [List.mem_cons]
      constructor
      · rintro ⟨h1, h2⟩
        exact ⟨h1, fun j hj => hj.elim (fun hji => hji ▸ hneg) (h2 j)⟩
      · rintro ⟨h1, h2⟩
        exact ⟨h1, fun j hj => h2 j (Or.inr hj)⟩
    · rw [if_neg hneg]
      cases acc with
      | none =>
        constructor
        · rintro ⟨h1, -⟩
          exact absurd h1 (by simp)
        · rintro ⟨-, h2⟩
          exact absurd (h2 i (List.mem_cons_self _ _)) hneg
      | some a =>
        constructor
        · rintro ⟨h1, -⟩
          have h1' : (if a.t ≤ i.t then some a else some i) = none := h1
          by_cases hle : a.t ≤ i.t
          · rw [if_pos hle] at h1'
            exact absurd h1' (by simp)
          · rw [if_neg hle] at h1'
            exact absurd h1' (by simp)
        · rintro ⟨h1, -⟩
          exact absurd h1 (by simp)

/-- helper: a hit produced by the `find_hit` loop is the initial candidate
or a member of the processed list. -/
theorem find_hit_go_mem (l : List Intersection) :
    ∀ acc m, find_hit_go acc l = some m → acc = some m ∨ m ∈ l := by
  induction l with
  | nil =>
    intro acc m h
    exact Or.inl h
  | cons i rest ih =>
    intro acc m h
    rw [find_hit_go_cons] at h
    by_cases hneg : i.t < 0
    · rw [if_pos hneg] at h
      rcases ih _ m h with h' | h'
      · exact Or.inl h'
      · exact Or.inr (List.mem_cons_of_mem _ h')
    · rw [if_neg hneg] at h
      cases acc with
      | none =>
        have h' : find_hit_go (some i) rest = some m := h
        rcases ih _ m h' with h'' | h''
        · exact Or.inr (by rw [Option.some.injEq] at h''; rw [← h'']; exact List.mem_cons_self _ _)
        · exact Or.inr (List.mem_cons_of_mem _ h'')
      | some a =>
        have h' : find_hit_go (if a.t ≤ i.t then some a else some i) rest = some m := h
        by_cases hle : a.t ≤ i.t
        · rw [if_pos hle] at h'
          rcases ih _ m h' with h'' | h''
          · exact Or.inl h''
          · exact Or.inr (List.mem_cons_of_mem _ h'')
        · rw [if_neg hle] at h'
          rcases ih _ m h' with h'' | h''
          · exact Or.inr (by rw [Option.some.injEq] at h''; rw [← h'']; exact List.mem_cons_self _ _)
          · exact Or.inr (List.mem_cons_of_mem _ h'')

/-- helper: the `find_hit` loop never produces a hit with a negative
parameter when its initial candidate is non-negative. -/
theorem find_hit_go_nonneg (l : List Intersection) :
    ∀ acc m, (∀ a, acc = some a → 0 ≤ a.t) → find_hit_go acc l = some m → 0 ≤ m.t := by
  induction l with
  | nil =>
    intro acc m hacc h
    exact hacc m h
  | cons i rest ih =>
    intro acc m hacc h
    rw [find_hit_go_cons] at h
    by_cases hneg : i.t < 0
    · rw [if_pos hneg] at h
      exact ih _ m hacc h
    · rw [if_neg hneg] at h
      cases acc with
      | none =>
        have h' : find_hit_go (some i) rest = some m := h
        exact ih _ m (fun a ha => by
          rw [Option.some.injEq] at ha
          rw [← ha]
          exact not_lt.mp hneg) h'
      | some a =>
        have h' : find_hit_go (if a.t ≤ i.t then some a else some i) rest = some m := h
        by_cases hle : a.t ≤ i.t
        · rw [if_pos hle] at h'
          exact ih _ m (fun a' ha' => by
            rw [Option.some.injEq] at ha'
            rw [← ha']
            exact hacc a rfl) h'
        · rw [if_neg hle] at h'
          exact ih _ m (fun a' ha' => by
            rw [Option.some.injEq] at ha'
            rw [← ha']
            exact not_lt.mp hneg) h'

/-- helper: the hit produced by the `find_hit` loop has the minimal
parameter among the initial candidate and the non-negative intersections
of the list. -/
theorem find_hit_go_min (l : List Intersection) :
    ∀ acc m, find_hit_go acc l = some m →
      (∀ a, acc = some a → m.t ≤ a.t) ∧ ∀ i ∈ l, 0 ≤ i.t → m.t ≤ i.t := by
  induction l with
  | nil =>
    intro acc m h
    refine ⟨fun a ha => ?_, by simp⟩
    have h' : acc = some m := h
    rw [h'] at ha
    rw [Option.some.injEq] at ha
    exact le_of_eq (congrArg Intersection.t ha)
  | cons i rest ih =>
    intro acc m h
    rw [find_hit_go_cons] at h
    by_cases hneg : i.t < 0
    · rw [if_pos hneg] at h
      obtain ⟨h1, h2⟩ := ih _ m h
      refine ⟨h1, fun j hj h0 => ?_⟩
      rcases List.mem_cons.mp hj with rfl | hjr
      · exact absurd hneg (not_lt.mpr h0)
      · exact h2 j hjr h0
    · rw [if_neg hneg] at h
      cases acc with
      | none =>
        have h' : find_hit_go (some i) rest = some m := h
        obtain ⟨h1, h2⟩ := ih _ m h'
        refine ⟨fun a ha => absurd ha (by simp), fun j hj h0 => ?_⟩
        rcases List.mem_cons.mp hj with rfl | hjr
        · exact h1 j rfl
        · exact h2 j hjr h0
      | some a =>
        have h' : find_hit_go (if a.t ≤ i.t then some a else some i) rest = some m := h
        by_cases hle : a.t ≤ i.t
        · rw [if_pos hle] at h'
          obtain ⟨h1, h2⟩ := ih _ m h'
          refine ⟨fun a' ha' => ?_, fun j hj h0 => ?_⟩
          · rw [Option.some.injEq] at ha'
            rw [← ha']
            exact h1 a rfl
          · rcases List.mem_cons.mp hj with rfl | hjr
            · exact le_trans (h1 a rfl) hle
            · exact h2 j hjr h0
        · rw [if_neg hle] at h'
          obtain ⟨h1, h2⟩ := ih _ m h'
          refine ⟨fun a' ha' => ?_, fun j hj h0 => ?_⟩
          · rw [Option.some.injEq] at ha'
            rw [← ha']
            exact le_trans (h1 i rfl) (le_of_lt (not_le.mp hle))
          · rcases List.mem_cons.mp hj with rfl | hjr
            · exact h1 j rfl
            · exact h2 j hjr h0

/-- helper: the hit produced by the `find_hit` loop is the initial
candidate, or occurs at a position before which every element is negative
or strictly greater (ties keep the first-seen intersection). -/
theorem find_hit_go_first (l : List Intersection) :
    ∀ acc m, find_hit_go acc l = some m →
      acc = some m ∨
        ∃ k : ℕ, l[k]? = some m ∧ (∀ a, acc = some a → m.t < a.t) ∧
          ∀ j : ℕ, j < k → ∀ i : Intersection, l[j]? = some i → i.t < 0 ∨ m.t < i.t := by
  induction l with
  | nil =>
    intro acc m h
    exact Or.inl h
  | cons i rest ih =>
    intro acc m h
    rw [find_hit_go_cons] at h
    by_cases hneg : i.t < 0
    · rw [if_pos hneg] at h
      rcases ih _ m h with h' | ⟨k, hk, hacc, hpre⟩
      · exact Or.inl h'
      · refine Or.inr ⟨k + 1, by simpa using hk, hacc, fun j hj i' hi' => ?_⟩
        match j, hj with
        | 0, _ =>
          rw [List.getElem?_cons_zero, Option.some.injEq] at hi'
          exact Or.inl (hi' ▸ hneg)
        | j' + 1, hj =>
          rw [List.getElem?_cons_succ] at hi'
          exact hpre j' (by omega) i' hi'
    · rw [if_neg hneg] at h
      cases acc with
      | none =>
        have h' : find_hit_go (some i) rest = some m := h
        rcases ih _ m h' with h'' | ⟨k, hk, hacc, hpre⟩
        · rw [Option.some.injEq] at h''
          exact Or.inr ⟨0, by rw [← h'']; simp, fun a ha => absurd ha (by simp),
            fun j hj i' hi' => absurd hj (by omega)⟩
        · refine Or.inr ⟨k + 1, by simpa using hk, fun a ha => absurd ha (by simp),
            fun j hj i' hi' => ?_⟩
          match j, hj with
          | 0, _ =>
            rw [List.getElem?_cons_zero, Option.some.injEq] at hi'
            exact Or.inr (hi' ▸ hacc i rfl)
          | j' + 1, hj =>
            rw [List.getElem?_cons_succ] at hi'
            exact hpre j' (by omega) i' hi'
      | some a =>
        have h' : find_hit_go (if a.t ≤ i.t then some a else some i) rest = some m := h
        by_cases hle : a.t ≤ i.t
        · rw [if_pos hle] at h'
          rcases ih _ m h' with h'' | ⟨k, hk, hacc, hpre⟩
          · exact Or.inl h''
          · refine Or.inr ⟨k + 1, by simpa using hk, fun a' ha' => ?_, fun j hj i' hi' => ?_⟩
            · rw [Option.some.injEq] at ha'
              rw [← ha']
              exact hacc a rfl
            · match j, hj with
              | 0, _ =>
                rw [List.getElem?_cons_zero, Option.some.injEq] at hi'
                exact Or.inr (hi' ▸ lt_of_lt_of_le (hacc a rfl) hle)
              | j' + 1, hj =>
                rw [List.getElem?_cons_succ] at hi'
                exact hpre j' (by omega) i' hi'
        · rw [if_neg hle] at h'
          rcases ih _ m h' with h'' | ⟨k, hk, hacc, hpre⟩
          · rw [Option.some.injEq] at h''
            refine Or.inr ⟨0, by rw [← h'']; simp, fun a' ha' => ?_,
              fun j hj i' hi' => absurd hj (by omega)⟩
            rw [Option.some.injEq] at ha'
            rw [← ha', ← h'']
            exact not_le.mp hle
          · refine Or.inr ⟨k + 1, by simpa using hk, fun a' ha' => ?_, fun j hj i' hi' => ?_⟩
            · rw [Option.some.injEq] at ha'
              rw [← ha']
              exact lt_trans (hacc i rfl) (not_le.mp hle)
            · match j, hj with
              | 0, _ =>
                rw [List.getElem?_cons_zero, Option.some.injEq] at hi'
                exact Or.inr (hi' ▸ hacc i rfl)
              | j' + 1, hj =>
                rw [List.getElem?_cons_succ] at hi'
                exact hpre j' (by omega) i' hi'

/-- C3: `find_hit` returns, among the intersections with parameter
`t ≥ 0`, the one with minimal `t` (the first-seen one when the minimal `t`
occurs more than once), and returns no hit exactly when every intersection
has a negative parameter; over `{t=5, t=7}` it returns `t=5`, over
`{t=-1, t=1}` it returns `t=1`, and over an all-negative list it returns
none. -/
theorem C3_find_hit :
    (∀ l : List Intersection, find_hit l = none ↔ ∀ i ∈ l, i.t < 0) ∧
    (∀ (l : List Intersection) (m : Intersection), find_hit l = some m →
      m ∈ l ∧ 0 ≤ m.t ∧ (∀ i ∈ l, 0 ≤ i.t → m.t ≤ i.t) ∧
        ∃ k : ℕ, l[k]? = some m ∧
          ∀ j : ℕ, j < k → ∀ i : Intersection, l[j]? = some i → i.t < 0 ∨ m.t < i.t) ∧
    find_hit [⟨sample_ray, 5, sample_object⟩, ⟨sample_ray, 7, sample_object⟩] =
      some ⟨sample_ray, 5, sample_object⟩ ∧
    find_hit [⟨sample_ray, -1, sample_object⟩, ⟨sample_ray, 1, sample_object⟩] =
      some ⟨sample_ray, 1, sample_object⟩ ∧
    find_hit [⟨sample_ray, -1, sample_object⟩, ⟨sample_ray, -2, sample_object⟩] = none := by
  refine ⟨?_, ?_, ?_, ?_, ?_⟩
  · intro l
    rw [find_hit, find_hit_go_none_iff]
    simp
  · intro l m h
    rw [find_hit] at h
    obtain ⟨-, hmin⟩ := find_hit_go_min l none m h
    rcases find_hit_go_mem l none m h with hbad | hmem
    · exact absurd hbad (by simp)
    refine ⟨hmem, find_hit_go_nonneg l none m (by simp) h, hmin, ?_⟩
    rcases find_hit_go_first l none m h with hbad | ⟨k, hk, -, hpre⟩
    · exact absurd hbad (by simp)
    · exact ⟨k, hk, hpre⟩
  · norm_num [find_hit, find_hit_go]
  · norm_num [find_hit, find_hit_go]
  · norm_num [find_hit, find_hit_go]

/-- C3, witness: the hit-characterization branch of the theorem applied to
the concrete list `{t=5, t=7}`. -/
theorem C3_find_hit_witness :
    find_hit [⟨sample_ray, 5, sample_object⟩, ⟨sample_ray, 7, sample_object⟩] =
      some ⟨sample_ray, 5, sample_object⟩ ∧
    (⟨sample_ray, 5, sample_object⟩ : Intersection) ∈
      [⟨sample_ray, 5, sample_object⟩, ⟨sample_ray, 7, sample_object⟩] ∧
    (0 : ℝ) ≤ (⟨sample_ray, 5, sample_object⟩ : Intersection).t := by
  have h : find_hit [⟨sample_ray, 5, sample_object⟩, ⟨sample_ray, 7, sample_object⟩] =
      some ⟨sample_ray, 5, sample_object⟩ := by
    norm_num [find_hit, find_hit_go]
  obtain ⟨hmem, hnn, -, -⟩ := C3_find_hit.2.1 _ _ h
  exact ⟨h, hmem, hnn⟩

/-- C4: `is_shadowed(point)` casts a ray from the light position with
direction `point - light.position` and returns true exactly when the
nearest non-negative hit of that ray against the world's objects (the
minimal intersection among those with `t ≥ 0`) has parameter `t < 1`;
when the world has no light it always returns false. -/
theorem C4_is_shadowed :
    ∀ (w : World) (pt : Point),
      (w.is_shadowed pt = true ↔
        ∃ light, w.light = some light ∧
          ∃ m ∈ find_many_intersections ⟨light.position, pt.sub light.position⟩ w.objects,
            0 ≤ m.t ∧
            (∀ i ∈ find_many_intersections ⟨light.position, pt.sub light.position⟩ w.objects,
              0 ≤ i.t → m.t ≤ i.t) ∧
            m.t < 1) ∧
      (w.light = none → w.is_shadowed pt = false) := by
  intro w pt
  refine ⟨?_, fun hl => by simp [World.is_shadowed, hl]⟩
  simp only [World.is_shadowed, World.find_intersections]
  cases hl : w.light with
  | none =>
    simp
  | some light =>
    have hperm :
        ((find_many_intersections ⟨light.position, pt.sub light.position⟩
            w.objects).mergeSort fun a b => decide (a.t ≤ b.t)).Perm
          (find_many_intersections ⟨light.position, pt.sub light.position⟩ w.objects) :=
      List.mergeSort_perm _ _
    cases hf : find_hit
        ((find_many_intersections ⟨light.position, pt.sub light.position⟩
          w.objects).mergeSort fun a b => decide (a.t ≤ b.t)) with
    | none =>
      simp only [hf, Bool.false_eq_true, false_iff]
      rintro ⟨light', hleq, m, hm, h0, -, -⟩
      rw [Option.some.injEq] at hleq
      rw [← hleq] at hm
      have hall := ((find_hit_go_none_iff _ _).mp hf).2
      exact absurd (hall m (hperm.mem_iff.mpr hm)) (not_lt.mpr h0)
    | some hit =>
      simp only [hf]
      rw [decide_eq_true_iff]
      constructor
      · intro hlt
        rw [find_hit] at hf
        refine ⟨light, rfl, hit, ?_, ?_, ?_, hlt⟩
        · exact hperm.mem_iff.mp ((find_hit_go_mem _ _ _ hf).resolve_left (by simp))
        · exact find_hit_go_nonneg _ _ _ (by simp) hf
        · intro i hi h0
          exact (find_hit_go_min _ _ _ hf).2 i (hperm.mem_iff.mpr hi) h0
      · rintro ⟨light', hleq, m, hm, h0, -, hlt1⟩
        rw [Option.some.injEq] at hleq
        rw [← hleq] at hm
        rw [find_hit] at hf
        exact lt_of_le_of_lt
          ((find_hit_go_min _ _ _ hf).2 m (hperm.mem_iff.mpr hm) h0) hlt1

/-- C4, witness: the no-light branch of the theorem applied to the empty
world. -/
theorem C4_is_shadowed_witness :
    (World.mk [] none).light = none ∧
    World.is_shadowed ⟨[], none⟩ ⟨0, 0, 0⟩ = false :=
  ⟨rfl, (C4_is_shadowed ⟨[], none⟩ ⟨0, 0, 0⟩).2 rfl⟩

/-- helper: adding black (the zero color) is the identity. -/
theorem color_add_black (c : Color) : c.add ⟨0, 0, 0⟩ = c := by
  cases c
  simp [Color.add]

/-- C5: when the `in_shadow` flag is set, and likewise when the dot product
of the normalized light direction with the (normalized) surface normal is
negative (light behind the surface), `lighting` returns exactly the ambient
term — the resolved base color (pattern lookup if present, else the flat
material color) times the light intensity times the material's ambient
coefficient — independent of the eye direction. -/
theorem C5_lighting_ambient :
    ∀ (material : Material) (object : Object) (light : PointLight) (position : Point)
      (camera surface : Vector),
      (lighting material object light position camera surface true =
        ((match material.pattern with
          | some pattern => pattern.val.color_at_object object position
          | none => material.color).hadamard light.intensity).smul material.ambient) ∧
      (((light.position.sub position).normalize).dot surface.normalize < 0 →
        lighting material object light position camera surface false =
          ((match material.pattern with
            | some pattern => pattern.val.color_at_object object position
            | none => material.color).hadamard light.intensity).smul material.ambient) := by
  intro material object light position camera surface
  constructor
  · cases hp : material.pattern with
    | none => simp [lighting, hp, Color.add]
    | some p => simp [lighting, hp, Color.add]
  · intro hneg
    have hn := not_le.mpr hneg
    cases hp : material.pattern with
    | none => simp [lighting, hp, hn, Color.add]
    | some p => simp [lighting, hp, hn, Color.add]

/-- C5, witness: the light-behind-the-surface branch applied to the default
material on the unit sphere, the light at `(0,0,1)` behind the surface
point at the origin with normal `(0,0,-1)`. -/
theorem C5_lighting_ambient_witness :
    ((PointLight.mk ⟨1, 1, 1⟩ ⟨0, 0, 1⟩).position.sub ⟨0, 0, 0⟩).normalize.dot
        (Vector.mk 0 0 (-1)).normalize < 0 ∧
    lighting default_material sample_object ⟨⟨1, 1, 1⟩, ⟨0, 0, 1⟩⟩ ⟨0, 0, 0⟩
      ⟨0, 0, -1⟩ ⟨0, 0, -1⟩ false = Color.mk 0.1 0.1 0.1 := by
  have hdot :
      ((PointLight.mk ⟨1, 1, 1⟩ ⟨0, 0, 1⟩).position.sub ⟨0, 0, 0⟩).normalize.dot
        (Vector.mk 0 0 (-1)).normalize < 0 := by
    simp only [Point.sub, Vector.normalize, Vector.magnitude, Vector.dot]
    norm_num
  refine ⟨hdot, ?_⟩
  rw [(C5_lighting_ambient default_material sample_object ⟨⟨1, 1, 1⟩, ⟨0, 0, 1⟩⟩
    ⟨0, 0, 0⟩ ⟨0, 0, -1⟩ ⟨0, 0, -1⟩).2 hdot]
  show ((Color.mk 1 1 1).hadamard ⟨1, 1, 1⟩).smul (0.1 : ℝ) = Color.mk 0.1 0.1 0.1
  simp [Color.hadamard, Color.smul]

/-- helper: the dot product of a non-zero vector with itself is positive. -/
theorem vector_dot_self_pos (v : Vector) (h : v ≠ ⟨0, 0, 0⟩) : 0 < v.dot v := by
  rcases v with ⟨x, y, z⟩
  show 0 < x * x + y * y + z * z
  by_contra hc
  push_neg at hc
  have hx : x = 0 := by nlinarith [mul_self_nonneg x, mul_self_nonneg y, mul_self_nonneg z]
  have hy : y = 0 := by nlinarith [mul_self_nonneg x, mul_self_nonneg y, mul_self_nonneg z]
  have hz : z = 0 := by nlinarith [mul_self_nonneg x, mul_self_nonneg y, mul_self_nonneg z]
  exact h (by rw [hx, hy, hz])

/-- helper: with a positive leading coefficient and non-negative reduced
discriminant, membership in the root pair of the sphere quadratic is
equivalent to satisfying the quadratic. -/
theorem quad_roots_iff (b2 bd dd R t : ℝ) (hb2 : 0 < b2)
    (hx : 0 ≤ bd / b2 * (bd / b2) - (dd - R * R) / b2) :
    (t = -(bd / b2) - Real.sqrt (bd / b2 * (bd / b2) - (dd - R * R) / b2) ∨
      t = -(bd / b2) + Real.sqrt (bd / b2 * (bd / b2) - (dd - R * R) / b2)) ↔
    b2 * t ^ 2 + 2 * bd * t + dd = R * R := by
  have hb2' : b2 ≠ 0 := ne_of_gt hb2
  have key : ∀ s : ℝ,
      b2 * s ^ 2 + 2 * bd * s + dd - R * R =
        b2 * ((s + bd / b2) ^ 2 - (bd / b2 * (bd / b2) - (dd - R * R) / b2)) := by
    intro s
    field_simp
    ring
  have hs : Real.sqrt (bd / b2 * (bd / b2) - (dd - R * R) / b2) ^ 2 =
      bd / b2 * (bd / b2) - (dd - R * R) / b2 := Real.sq_sqrt hx
  constructor
  · rintro (rfl | rfl)
    · have hk := key (-(bd / b2) - Real.sqrt (bd / b2 * (bd / b2) - (dd - R * R) / b2))
      nlinarith [hk, hs]
    · have hk := key (-(bd / b2) + Real.sqrt (bd / b2 * (bd / b2) - (dd - R * R) / b2))
      nlinarith [hk, hs]
  · intro heq
    have h0 : (t + bd / b2) ^ 2 = bd / b2 * (bd / b2) - (dd - R * R) / b2 := by
      have hk := key t
      have hz : b2 * ((t + bd / b2) ^ 2 - (bd / b2 * (bd / b2) - (dd - R * R) / b2)) = 0 := by
        linarith
      have := mul_eq_zero.mp hz
      rcases this with h | h
      · exact absurd h hb2'
      · linarith
    have habs : |t + bd / b2| = Real.sqrt (bd / b2 * (bd / b2) - (dd - R * R) / b2) := by
      rw [← Real.sqrt_sq_eq_abs, h0]
    rcases (abs_eq (Real.sqrt_nonneg _)).mp habs with h | h
    · right
      linarith
    · left
      linarith

/-- helper: with a positive leading coefficient and negative reduced
discriminant, the sphere quadratic has no real solution. -/
theorem quad_no_roots (b2 bd dd R t : ℝ) (hb2 : 0 < b2)
    (hx : ¬ 0 ≤ bd / b2 * (bd / b2) - (dd - R * R) / b2) :
    b2 * t ^ 2 + 2 * bd * t + dd ≠ R * R := by
  intro heq
  have hb2' : b2 ≠ 0 := ne_of_gt hb2
  have key : b2 * t ^ 2 + 2 * bd * t + dd - R * R =
      b2 * ((t + bd / b2) ^ 2 - (bd / b2 * (bd / b2) - (dd - R * R) / b2)) := by
    field_simp
    ring
  push_neg at hx
  nlinarith [sq_nonneg (t + bd / b2), key]

/-- C7: for every local ray with non-zero direction and every sphere,
`local_intersect` returns either 0 or 2 roots, the returned roots are
exactly the real solutions of the quadratic obtained by substituting the
ray parametrization into the sphere equation
`|position(t) - origin|² = radius²` (a tangent ray's repeated root included),
and a two-root result is symmetric about the parameter of closest approach
`-(b·d)/(b·b)`. -/
theorem C7_sphere_local_intersect :
    ∀ (c : Point) (R : ℝ) (transf : Matrix) (material : Material) (r : Ray),
      r.direction ≠ ⟨0, 0, 0⟩ →
      (((Object.sphere c R transf material).local_intersect r).length = 0 ∨
        ((Object.sphere c R transf material).local_intersect r).length = 2) ∧
      (∀ t : ℝ,
        t ∈ (Object.sphere c R transf material).local_intersect r ↔
          ((r.position t).sub c).dot ((r.position t).sub c) = R * R) ∧
      (∀ t1 t2 : ℝ,
        (Object.sphere c R transf material).local_intersect r = [t1, t2] →
          t1 + t2 =
            2 * (-(r.direction.dot (r.origin.sub c)) / r.direction.dot r.direction)) := by
  intro c R transf material r hdir
  have hb2 : 0 < r.direction.dot r.direction := vector_dot_self_pos _ hdir
  have hexpand : ∀ t : ℝ,
      ((r.position t).sub c).dot ((r.position t).sub c) =
        r.direction.dot r.direction * t ^ 2 +
          2 * (r.direction.dot (r.origin.sub c)) * t +
          (r.origin.sub c).dot (r.origin.sub c) := by
    intro t
    rcases r with ⟨⟨ax, ay, az⟩, ⟨bx, by', bz⟩⟩
    rcases c with ⟨cx, cy, cz⟩
    simp only [Ray.position, Point.addV, Point.sub, Vector.dot, Vector.smul]
    ring
  simp only [Object.local_intersect]
  by_cases hx : (0 : ℝ) ≤
      r.direction.dot (r.origin.sub c) / r.direction.dot r.direction *
          (r.direction.dot (r.origin.sub c) / r.direction.dot r.direction) -
        ((r.origin.sub c).dot (r.origin.sub c) - R * R) / r.direction.dot r.direction
  · rw [if_pos hx]
    refine ⟨Or.inr rfl, fun t => ?_, fun t1 t2 hlist => ?_⟩
    · rw [hexpand t]
      simp only [List.mem_cons, List.not_mem_nil, or_false]
      exact quad_roots_iff (r.direction.dot r.direction)
        (r.direction.dot (r.origin.sub c)) ((r.origin.sub c).dot (r.origin.sub c))
        R t hb2 hx
    · rw [List.cons.injEq, List.cons.injEq] at hlist
      obtain ⟨h1, h2, -⟩ := hlist
      rw [← h1, ← h2]
      field_simp
      ring
  · rw [if_neg hx]
    refine ⟨Or.inl rfl, fun t => ?_, fun t1 t2 hlist => by cases hlist⟩
    simp only [List.not_mem_nil, false_iff]
    rw [hexpand t]
    exact quad_no_roots (r.direction.dot r.direction)
      (r.direction.dot (r.origin.sub c)) ((r.origin.sub c).dot (r.origin.sub c))
      R t hb2 hx

/-- C7, witness: the claim applied to the source's own test ray
`(0,0,-5) → (0,0,1)` against the unit sphere at the origin. -/
theorem C7_sphere_local_intersect_witness :
    (Ray.mk ⟨0, 0, -5⟩ ⟨0, 0, 1⟩).direction ≠ Vector.mk 0 0 0 ∧
    (((Object.sphere ⟨0, 0, 0⟩ 1 (Matrix.identity 4) default_material).local_intersect
        sample_ray).length = 0 ∨
      ((Object.sphere ⟨0, 0, 0⟩ 1 (Matrix.identity 4) default_material).local_intersect
        sample_ray).length = 2) := by
  have hdir : (Ray.mk ⟨0, 0, -5⟩ ⟨0, 0, 1⟩).direction ≠ Vector.mk 0 0 0 := by
    intro h
    have := congrArg Vector.z h
    norm_num at this
  exact ⟨hdir,
    (C7_sphere_local_intersect ⟨0, 0, 0⟩ 1 (Matrix.identity 4) default_material
      sample_ray hdir).1⟩

/-- helper: transforming a point by any 4×4 matrix succeeds. -/
theorem transform_point_of_square4 (T : Matrix) (p : Point) (hn : T.n = 4) (hm : T.m = 4) :
    ∃ q, transform_point T p = .ok q := by
  have hcond : ¬ T.m ≠ (Matrix.ofPoint p).n := fun hne => hne (by rw [hm]; rfl)
  simp only [transform_point, Matrix.multiply, if_neg hcond]
  rw [if_neg (by rw [hn]; simp [Matrix.ofPoint])]
  exact ⟨_, rfl⟩

/-- helper: transforming a vector by any 4×4 matrix succeeds. -/
theorem transform_vector_of_square4 (T : Matrix) (v : Vector) (hn : T.n = 4) (hm : T.m = 4) :
    ∃ w, transform_vector T v = .ok w := by
  have hcond : ¬ T.m ≠ (Matrix.ofVector v).n := fun hne => hne (by rw [hm]; rfl)
  simp only [transform_vector, Matrix.multiply, if_neg hcond]
  rw [if_neg (by rw [hn]; simp [Matrix.ofVector])]
  exact ⟨_, rfl⟩

/-- helper: transforming a ray by any 4×4 matrix succeeds. -/
theorem ray_transform_of_square4 (T : Matrix) (r : Ray) (hn : T.n = 4) (hm : T.m = 4) :
    ∃ r', r.transform T = .ok r' := by
  obtain ⟨o, ho⟩ := transform_point_of_square4 T r.origin hn hm
  obtain ⟨d, hd⟩ := transform_vector_of_square4 T r.direction hn hm
  exact ⟨⟨o, d⟩, by simp only [Ray.transform, ho, hd]⟩

/-- C9 (amended): for every ray and every sphere or plane whose
transformation is a 4×4 matrix — which covers every transformation the
library's named constructors build — `intersect` never panics: the
transform inversion and the ray transformation always succeed and a
(possibly empty) root list is returned; with a transformation of any other
shape installed through `change_transformation`, the internal unwraps do
panic (see the counterexample). -/
theorem C9_intersect_no_panic :
    ∀ (o : Object) (r : Ray),
      o.transformation.n = 4 → o.transformation.m = 4 →
      ∃ ts, o.intersect r = some ts := by
  intro o r hn hm
  have hsq : ¬ o.transformation.n ≠ o.transformation.m := by rw [hn, hm]; simp
  cases hinv : o.transformation.invert with
  | error e =>
    exfalso
    simp only [Matrix.invert, if_neg hsq] at hinv
    exact Except.noConfusion hinv
  | ok inv =>
    have hinv2 := hinv
    simp only [Matrix.invert, if_neg hsq] at hinv2
    rw [Except.ok.injEq] at hinv2
    have hn' : inv.n = 4 := by rw [← hinv2]; exact hm
    have hm' : inv.m = 4 := by rw [← hinv2]; exact hn
    obtain ⟨r', hr'⟩ := ray_transform_of_square4 inv r hn' hm'
    refine ⟨o.local_intersect r', ?_⟩
    simp only [Object.intersect, hinv, Except.toOption, hr']

/-- C9, counterexample: a unit sphere whose transformation has been changed
to a 1×1 matrix (which the public `change_transformation` accepts) makes
`intersect` panic — modelled as `none` — because the 1×1 inverse cannot be
multiplied with the 4×1 homogeneous ray origin; so `intersect` does not
return a root list for *every* transformation, contradicting the claim as
stated. -/
theorem C9_counterexample :
    (Object.sphere ⟨0, 0, 0⟩ 1 ⟨1, 1, [[1]]⟩ default_material).intersect sample_ray =
      none := by
  simp [Object.intersect, Object.transformation, Matrix.invert, Ray.transform,
    transform_point, Matrix.multiply, Matrix.ofPoint, Except.toOption]

/-- C9, witness: the amended theorem applied to the identity-transformed
unit sphere and the sample ray. -/
theorem C9_intersect_no_panic_witness :
    sample_object.transformation.n = 4 ∧ sample_object.transformation.m = 4 ∧
    (sample_object.intersect sample_ray).isSome = true := by
  obtain ⟨ts, hts⟩ := C9_intersect_no_panic sample_object sample_ray rfl rfl
  exact ⟨rfl, rfl, by rw [hts]; rfl⟩

/-- C10: a world whose light has not been set makes `shade_hit` panic
(modelled as `none`) and therefore `color_at_ray_hit` panic on any ray
that hits an object, while a ray that hits nothing still yields black;
with a light present, `shade_hit` and `color_at_ray_hit` return a color
for every input — a set light is the implicit precondition of shading. -/
theorem C10_shading_requires_light :
    ∀ w : World,
      (∀ comp_res : ComputationResult, w.light = none → w.shade_hit comp_res = none) ∧
      (∀ (r : Ray) (h : Intersection), w.light = none →
        find_hit (w.find_intersections r) = some h → w.color_at_ray_hit r = none) ∧
      (∀ r : Ray, find_hit (w.find_intersections r) = none →
        w.color_at_ray_hit r = some ⟨0, 0, 0⟩) ∧
      (∀ (light : PointLight) (comp_res : ComputationResult), w.light = some light →
        ∃ c, w.shade_hit comp_res = some c) ∧
      (∀ (light : PointLight) (r : Ray), w.light = some light →
        ∃ c, w.color_at_ray_hit r = some c) := by
  intro w
  refine ⟨?_, ?_, ?_, ?_, ?_⟩
  · intro comp_res hl
    simp [World.shade_hit, hl]
  · intro r h hl hf
    simp [World.color_at_ray_hit, hf, World.shade_hit, hl]
  · intro r hf
    simp [World.color_at_ray_hit, hf]
  · intro light comp_res hl
    exact ⟨lighting comp_res.object.material comp_res.object light comp_res.over_point
      comp_res.eye_dir comp_res.normal (w.is_shadowed comp_res.over_point),
      by simp [World.shade_hit, hl]⟩
  · intro light r hl
    cases hf : find_hit (w.find_intersections r) with
    | some hit =>
      exact ⟨lighting hit.prepare_computations.object.material
        hit.prepare_computations.object light hit.prepare_computations.over_point
        hit.prepare_computations.eye_dir hit.prepare_computations.normal
        (w.is_shadowed hit.prepare_computations.over_point),
        by simp [World.color_at_ray_hit, hf, World.shade_hit, hl]⟩
    | none =>
      exact ⟨⟨0, 0, 0⟩, by simp [World.color_at_ray_hit, hf]⟩

/-- C10, witness: the black-on-miss branch applied to the empty world
(which has no light), where the sample ray hits nothing. -/
theorem C10_shading_requires_light_witness :
    find_hit (World.find_intersections ⟨[], none⟩ sample_ray) = none ∧
    World.color_at_ray_hit ⟨[], none⟩ sample_ray = some ⟨0, 0, 0⟩ := by
  have hf : find_hit (World.find_intersections ⟨[], none⟩ sample_ray) = none := by
    simp [World.find_intersections, find_many_intersections, find_hit, find_hit_go_nil]
  exact ⟨hf, (C10_shading_requires_light ⟨[], none⟩).2.2.1 sample_ray hf⟩

end Umbralux
